import Mathlib

/-!
Shallow embedding of the Infinytum/structures Go library: shadowed `Map`
(`builtinMap` with an optional `shadow` field) and shadowed `Table`
(`builtinTable`), plus the flat (shadowless) `builtinMap` variant.

Go maps `map[K]V` are embedded as association lists with unique keys in
reachable states; `mfind`, `minsert`, `mdelete` model Go map indexing,
assignment and `delete`.  Go errors are embedded as values carrying the
message produced by `errors.New`.  Mutating methods return the result
paired with the updated receiver; the shadow is only ever read, exactly
as in the source.
-/

namespace Structures

/-- A Go `error` value created by `errors.New(msg)`; equality of values
created with distinct messages is equality of messages here (all messages
in the library are distinct). -/
structure Err where
  msg : String
deriving DecidableEq, Repr

/-- Embeds `TableDuplicateKeys = errors.New("the given keys already exist")` from table.go. -/
def TableDuplicateKeys : Err := ⟨"the given keys already exist"⟩

/-- Embeds `TableKeysNotFound = errors.New("no value was found for the given keys")` from table.go. -/
def TableKeysNotFound : Err := ⟨"no value was found for the given keys"⟩

/-- Embeds `MapKeyNotFound = errors.New("key was not found")` from map.go. -/
def MapKeyNotFound : Err := ⟨"key was not found"⟩

/-- Embeds `MapDuplicateKey = errors.New("key already exists")` from map.go. -/
def MapDuplicateKey : Err := ⟨"key already exists"⟩

/-- Embeds `errors.New("cannot delete from shadow table")`, created inline in
both `builtinMap.Delete` and `builtinTable.Delete`. -/
def cannotDeleteFromShadowTable : Err := ⟨"cannot delete from shadow table"⟩

variable {K V K1 K2 : Type}

/-- Go map read `v, ok := m[k]`: the value stored at `k`, if any. -/
def mfind [DecidableEq K] : List (K × V) → K → Option V
  | [], _ => none
  | (k', v') :: rest, k => if k = k' then some v' else mfind rest k

/-- Go map assignment `m[k] = v`: replace the entry at `k` if present,
otherwise add it. -/
def minsert [DecidableEq K] : List (K × V) → K → V → List (K × V)
  | [], k, v => [(k, v)]
  | (k', v') :: rest, k, v =>
      if k = k' then (k, v) :: rest else (k', v') :: minsert rest k v

/-- Go `delete(m, k)`: remove the entry at `k` (Go maps hold each key at
most once; removing every occurrence agrees with that on such lists). -/
def mdelete [DecidableEq K] (t : List (K × V)) (k : K) : List (K × V) :=
  t.filter (fun p => decide (p.1 ≠ k))

theorem mfind_minsert [DecidableEq K] (t : List (K × V)) (k k' : K) (v : V) :
    mfind (minsert t k v) k' = if k' = k then some v else mfind t k' := by
  induction t with
  | nil =>
      by_cases h : k' = k <;> simp [minsert, mfind, h]
  | cons p rest ih =>
      obtain ⟨a, b⟩ := p
      by_cases hk : k = a <;> by_cases h : k' = a <;> by_cases h2 : k' = k <;>
        simp_all [minsert, mfind]

theorem mfind_mdelete [DecidableEq K] (t : List (K × V)) (k k' : K) :
    mfind (mdelete t k) k' = if k' = k then none else mfind t k' := by
  induction t with
  | nil => simp [mdelete, mfind]
  | cons p rest ih =>
      obtain ⟨a, b⟩ := p
      by_cases hk : a = k <;> by_cases h : k' = a <;> by_cases h2 : k' = k <;>
        simp_all [mdelete, mfind]

/-!
## Shadowed `builtinMap` (src/unnamed/part_001)

`builtinMap[K, V]` holds `table map[K]V` and `shadow Map[K, V]` (possibly
`nil`).  `SMap.root tbl` is a map whose `shadow` is `nil`; `SMap.shadowed
tbl s` has `shadow = s`.  The shadow chain is finite and acyclic, as the
library constructs it. -/
inductive SMap (K V : Type) : Type where
  | root (tbl : List (K × V))
  | shadowed (tbl : List (K × V)) (shadow : SMap K V)
deriving DecidableEq, Repr

namespace SMap

variable [DecidableEq K]

/-- The local `table` field of the receiver. -/
def tbl : SMap K V → List (K × V)
  | .root t => t
  | .shadowed t _ => t

/-- Replace the local `table` field, keeping the `shadow` field. -/
def withTbl : SMap K V → List (K × V) → SMap K V
  | .root _, t => .root t
  | .shadowed _ s, t => .shadowed t s

/-- The `shadow` field (`none` models Go `nil`). -/
def shadowOpt : SMap K V → Option (SMap K V)
  | .root _ => none
  | .shadowed _ s => some s

/-- Embeds `builtinMap.Add`: error if the key exists locally, else `t.table[key] = newVal`. -/
def Add (m : SMap K V) (key : K) (newVal : V) : Option Err × SMap K V :=
  match mfind m.tbl key with
  | some _ => (some TableDuplicateKeys, m)
  | none => (none, m.withTbl (minsert m.tbl key newVal))

/-- Embeds `builtinMap.Contains`: local hit, else recurse into the shadow when non-nil. -/
def Contains : SMap K V → K → Bool
  | .root t, key => (mfind t key).isSome
  | .shadowed t s, key =>
      if (mfind t key).isSome then true else s.Contains key

/-- Embeds the check `t.shadow != nil && t.shadow.Contains(key)` of `builtinMap.Delete`. -/
def shadowContains : SMap K V → K → Bool
  | .root _, _ => false
  | .shadowed _ s, key => s.Contains key

/-- Embeds `builtinMap.Delete`: delete locally if present; else the
"cannot delete from shadow table" error if the shadow chain has the key;
else `TableKeysNotFound`. -/
def Delete (m : SMap K V) (key : K) : Option Err × SMap K V :=
  match mfind m.tbl key with
  | some _ => (none, m.withTbl (mdelete m.tbl key))
  | none =>
      if m.shadowContains key then (some cannotDeleteFromShadowTable, m)
      else (some TableKeysNotFound, m)

/-- Embeds `builtinMap.Get`: `err = TableKeysNotFound`, cleared on a local hit;
on a miss with a non-nil shadow, return `t.shadow.Get(key)`. -/
def Get : SMap K V → K → Except Err V
  | .root t, key =>
      match mfind t key with
      | some v => .ok v
      | none => .error TableKeysNotFound
  | .shadowed t s, key =>
      match mfind t key with
      | some v => .ok v
      | none => s.Get key

/-- Embeds `builtinMap.GetOrDefault`: local hit, else shadow when non-nil, else `def`. -/
def GetOrDefault : SMap K V → K → V → V
  | .root t, key, dflt =>
      match mfind t key with
      | some v => v
      | none => dflt
  | .shadowed t s, key, dflt =>
      match mfind t key with
      | some v => v
      | none => s.GetOrDefault key dflt

/-- Embeds `builtinMap.GetOrSet`: local hit returns it; else if `shadow != nil`,
return `shadow.Get(key)` when that succeeds, otherwise the zero value of
`V` (modelled as `none`) with no write; only a shadowless map writes
`newVal`. -/
def GetOrSet (m : SMap K V) (key : K) (newVal : V) : Option V × SMap K V :=
  match m with
  | .root t =>
      match mfind t key with
      | some v => (some v, m)
      | none => (some newVal, .root (minsert t key newVal))
  | .shadowed t s =>
      match mfind t key with
      | some v => (some v, m)
      | none =>
          match s.Get key with
          | .ok v => (some v, m)
          | .error _ => (none, m)

/-- Embeds `builtinMap.Set`: `t.table[key] = newVal`, always `nil` error. -/
def Set (m : SMap K V) (key : K) (newVal : V) : Option Err × SMap K V :=
  (none, m.withTbl (minsert m.tbl key newVal))

/-- Embeds `builtinMap.ShadowCopy`: a fresh empty map whose shadow is the receiver. -/
def ShadowCopy (m : SMap K V) : SMap K V := .shadowed [] m

/-- Models one Go copy loop: for each key-value pair of `src`, in order,
assign it into the accumulator. -/
def mergeInto (acc src : List (K × V)) : List (K × V) :=
  src.foldl (fun a p => minsert a p.1 p.2) acc

/-- Embeds `builtinMap.ToMap`: a shadowless map returns `t.table`; otherwise copy
the LOCAL entries into a fresh map first, then overwrite with the
flattened SHADOW entries (this is the order the source uses). -/
def ToMap : SMap K V → List (K × V)
  | .root t => t
  | .shadowed t s => mergeInto (mergeInto [] t) s.ToMap

/-- Lookup through the whole chain, local first: the reference semantics
of the layered map. -/
def chainFind : SMap K V → K → Option V
  | .root t, key => mfind t key
  | .shadowed t s, key =>
      match mfind t key with
      | some v => some v
      | none => s.chainFind key

/-- Every level of the chain has duplicate-free keys (true of every map
the library can construct, since Go maps hold each key once). -/
def WF : SMap K V → Prop
  | .root t => t.Pairwise (fun p q => p.1 ≠ q.1)
  | .shadowed t s => t.Pairwise (fun p q => p.1 ≠ q.1) ∧ s.WF

instance decWF : ∀ m : SMap K V, Decidable (m.WF)
  | .root t => inferInstanceAs (Decidable (t.Pairwise _))
  | .shadowed t s =>
      letI : Decidable (s.WF) := decWF s
      inferInstanceAs (Decidable (_ ∧ _))

end SMap

/-!
## Flat `builtinMap` (src/unnamed/part_000)

The shadowless variant: `builtinMap[K, V]` with only `table map[K]V`. -/
structure FMap (K V : Type) : Type where
  tbl : List (K × V)
deriving DecidableEq, Repr

namespace FMap

variable [DecidableEq K]

/-- Flat `builtinMap.Add`. -/
def Add (m : FMap K V) (key : K) (newVal : V) : Option Err × FMap K V :=
  match mfind m.tbl key with
  | some _ => (some TableDuplicateKeys, m)
  | none => (none, ⟨minsert m.tbl key newVal⟩)

/-- Flat `builtinMap.Contains`. -/
def Contains (m : FMap K V) (key : K) : Bool :=
  (mfind m.tbl key).isSome

/-- Flat `builtinMap.Delete`. -/
def Delete (m : FMap K V) (key : K) : Option Err × FMap K V :=
  match mfind m.tbl key with
  | some _ => (none, ⟨mdelete m.tbl key⟩)
  | none => (some TableKeysNotFound, m)

/-- Flat `builtinMap.Get`. -/
def Get (m : FMap K V) (key : K) : Except Err V :=
  match mfind m.tbl key with
  | some v => .ok v
  | none => .error TableKeysNotFound

/-- Flat `builtinMap.GetOrDefault`: `value = def`, overwritten on a hit. -/
def GetOrDefault (m : FMap K V) (key : K) (dflt : V) : V :=
  match mfind m.tbl key with
  | some v => v
  | none => dflt

/-- Flat `builtinMap.GetOrSet`: write `newVal` when absent, then read
`t.table[key]` (a Go indexed read: zero value, i.e. `none`, if absent). -/
def GetOrSet (m : FMap K V) (key : K) (newVal : V) : Option V × FMap K V :=
  let t' := if (mfind m.tbl key).isSome then m.tbl else minsert m.tbl key newVal
  (mfind t' key, ⟨t'⟩)

/-- Flat `builtinMap.Set`. -/
def Set (m : FMap K V) (key : K) (newVal : V) : Option Err × FMap K V :=
  (none, ⟨minsert m.tbl key newVal⟩)

/-- Flat `builtinMap.ToMap`: returns `t.table`. -/
def ToMap (m : FMap K V) : List (K × V) := m.tbl

end FMap

/-!
## Shadowed `builtinTable` (src/table_builtin.go)

`builtinTable[K1, K2, V2]` holds `table map[K1]map[K2]V2` and
`shadow Table[K1, K2, V2]` (possibly `nil`). -/
inductive STable (K1 K2 V : Type) : Type where
  | root (tbl : List (K1 × List (K2 × V)))
  | shadowed (tbl : List (K1 × List (K2 × V))) (shadow : STable K1 K2 V)
deriving DecidableEq, Repr

namespace STable

variable [DecidableEq K1] [DecidableEq K2]

/-- The local `table` field of the receiver. -/
def tbl : STable K1 K2 V → List (K1 × List (K2 × V))
  | .root t => t
  | .shadowed t _ => t

/-- Replace the local `table` field, keeping the `shadow` field. -/
def withTbl : STable K1 K2 V → List (K1 × List (K2 × V)) → STable K1 K2 V
  | .root _, t => .root t
  | .shadowed _ s, t => .shadowed t s

/-- The `shadow` field (`none` models Go `nil`). -/
def shadowOpt : STable K1 K2 V → Option (STable K1 K2 V)
  | .root _ => none
  | .shadowed _ s => some s

/-- The nested read `t.table[k1][k2]` with both comma-ok checks. -/
def tfind (t : List (K1 × List (K2 × V))) (k1 : K1) (k2 : K2) : Option V :=
  match mfind t k1 with
  | some branch => mfind branch k2
  | none => none

/-- Embeds `t.table[k1][k2] = v` preceded by `t.table[k1] = make(...)` when the
`k1` branch is absent. -/
def twrite (t : List (K1 × List (K2 × V))) (k1 : K1) (k2 : K2) (v : V) :
    List (K1 × List (K2 × V)) :=
  minsert t k1 (minsert ((mfind t k1).getD []) k2 v)

/-- Embeds `builtinTable.Add`: make the `k1` branch if absent; error only when
both keys are already present; then `t.table[k1][k2] = newVal`. -/
def Add (t : STable K1 K2 V) (k1 : K1) (k2 : K2) (newVal : V) :
    Option Err × STable K1 K2 V :=
  match mfind t.tbl k1 with
  | none => (none, t.withTbl (twrite t.tbl k1 k2 newVal))
  | some branch =>
      if (mfind branch k2).isSome then (some TableDuplicateKeys, t)
      else (none, t.withTbl (twrite t.tbl k1 k2 newVal))

/-- Embeds `builtinTable.Contains`: nested local hit, else shadow when non-nil. -/
def Contains : STable K1 K2 V → K1 → K2 → Bool
  | .root t, k1, k2 => (tfind t k1 k2).isSome
  | .shadowed t s, k1, k2 =>
      if (tfind t k1 k2).isSome then true else s.Contains k1 k2

/-- Embeds the check `t.shadow != nil && t.shadow.Contains(k1, k2)`. -/
def shadowContains : STable K1 K2 V → K1 → K2 → Bool
  | .root _, _, _ => false
  | .shadowed _ s, k1, k2 => s.Contains k1 k2

/-- Embeds `builtinTable.Delete`: `delete(t.table[k1], k2)` when both keys are
present locally (the possibly-emptied `k1` branch is left in place); else
the shadow error or `TableKeysNotFound`. -/
def Delete (t : STable K1 K2 V) (k1 : K1) (k2 : K2) :
    Option Err × STable K1 K2 V :=
  match mfind t.tbl k1 with
  | some branch =>
      if (mfind branch k2).isSome then
        (none, t.withTbl (minsert t.tbl k1 (mdelete branch k2)))
      else if t.shadowContains k1 k2 then (some cannotDeleteFromShadowTable, t)
      else (some TableKeysNotFound, t)
  | none =>
      if t.shadowContains k1 k2 then (some cannotDeleteFromShadowTable, t)
      else (some TableKeysNotFound, t)

/-- Embeds `builtinTable.Get`. -/
def Get : STable K1 K2 V → K1 → K2 → Except Err V
  | .root t, k1, k2 =>
      match tfind t k1 k2 with
      | some v => .ok v
      | none => .error TableKeysNotFound
  | .shadowed t s, k1, k2 =>
      match tfind t k1 k2 with
      | some v => .ok v
      | none => s.Get k1 k2

/-- Embeds `t.shadow.Get(k1, k2)`, only called when the shadow is non-nil. -/
def shadowGet : STable K1 K2 V → K1 → K2 → Except Err V
  | .root _, _, _ => .error TableKeysNotFound
  | .shadowed _ s, k1, k2 => s.Get k1 k2

/-- Embeds `builtinTable.GetOrDefault`. -/
def GetOrDefault : STable K1 K2 V → K1 → K2 → V → V
  | .root t, k1, k2, dflt =>
      match tfind t k1 k2 with
      | some v => v
      | none => dflt
  | .shadowed t s, k1, k2, dflt =>
      match tfind t k1 k2 with
      | some v => v
      | none => s.GetOrDefault k1 k2 dflt

/-- Embeds `builtinTable.GetOrSet`: the four-way tie-break of the source.  The
result `none` is the final bare `return` (zero value), reached only when
the shadow `Contains` the pair but its `Get` then fails. -/
def GetOrSet (t : STable K1 K2 V) (k1 : K1) (k2 : K2) (newVal : V) :
    Option V × STable K1 K2 V :=
  match mfind t.tbl k1 with
  | some branch =>
      match mfind branch k2 with
      | some v => (some v, t)
      | none =>
          if t.shadowContains k1 k2 then
            match t.shadowGet k1 k2 with
            | .ok v => (some v, t)
            | .error _ => (none, t)
          else
            (some newVal, t.withTbl (minsert t.tbl k1 (minsert branch k2 newVal)))
  | none =>
      if t.shadowContains k1 k2 then
        match t.shadowGet k1 k2 with
        | .ok v => (some v, t)
        | .error _ => (none, t)
      else
        (some newVal, t.withTbl (minsert t.tbl k1 (minsert [] k2 newVal)))

/-- Embeds `builtinTable.Set`: make the branch if needed, then write; `nil` error. -/
def Set (t : STable K1 K2 V) (k1 : K1) (k2 : K2) (newVal : V) :
    Option Err × STable K1 K2 V :=
  (none, t.withTbl (twrite t.tbl k1 k2 newVal))

/-- Embeds `builtinTable.ShadowCopy`: a fresh empty table shadowing the receiver. -/
def ShadowCopy (t : STable K1 K2 V) : STable K1 K2 V := .shadowed [] t

/-- Models the doubly nested Go loop of the flatten: for each first-level
key and each pair under it, in order, `m.Set(k1, k2, v)` into the
accumulator. -/
def tflattenInto (acc src : List (K1 × List (K2 × V))) :
    List (K1 × List (K2 × V)) :=
  src.foldl (fun a p => p.2.foldl (fun a' q => twrite a' p.1 q.1 q.2) a) acc

/-- Embeds `builtinTable.ToMap`: a shadowless table returns `t.table`; otherwise
`Set` every pair of the flattened shadow into a fresh table, then every
local pair (local written last, so local wins per pair). -/
def ToMap : STable K1 K2 V → List (K1 × List (K2 × V))
  | .root t => t
  | .shadowed t s => tflattenInto (tflattenInto [] s.ToMap) t

/-- Lookup through the whole chain, local first. -/
def chainFind : STable K1 K2 V → K1 → K2 → Option V
  | .root t, k1, k2 => tfind t k1 k2
  | .shadowed t s, k1, k2 =>
      match tfind t k1 k2 with
      | some v => some v
      | none => s.chainFind k1 k2

/-- Duplicate-free keys at both levels, through the whole chain. -/
def WF : STable K1 K2 V → Prop
  | .root t =>
      t.Pairwise (fun p q => p.1 ≠ q.1) ∧
        ∀ p ∈ t, p.2.Pairwise (fun a b => a.1 ≠ b.1)
  | .shadowed t s =>
      (t.Pairwise (fun p q => p.1 ≠ q.1) ∧
        ∀ p ∈ t, p.2.Pairwise (fun a b => a.1 ≠ b.1)) ∧ s.WF

instance decWFT : ∀ t : STable K1 K2 V, Decidable (t.WF)
  | .root t => inferInstanceAs (Decidable (_ ∧ _))
  | .shadowed t s =>
      letI : Decidable (s.WF) := decWFT s
      inferInstanceAs (Decidable (_ ∧ _))

end STable

/-!
## Supporting lemmas
-/

/-- Keys of entries found by `mfind` are members of the key list. -/
theorem mem_keys_of_mfind_some [DecidableEq K] {t : List (K × V)} {k : K} {v : V}
    (h : mfind t k = some v) : k ∈ t.map Prod.fst := by
  induction t with
  | nil => simp [mfind] at h
  | cons p rest ih =>
      by_cases hk : k = p.1
      · simp [hk]
      · rw [mfind, if_neg (by exact fun hc => hk (by cases p; exact hc))] at h
        simp [ih h]

theorem mfind_eq_none_of_not_mem_keys [DecidableEq K] {t : List (K × V)} {k : K}
    (h : k ∉ t.map Prod.fst) : mfind t k = none := by
  cases hf : mfind t k with
  | none => rfl
  | some v => exact absurd (mem_keys_of_mfind_some hf) h

/-- Membership in `minsert t k v` is membership in `t` or being `(k, v)`. -/
theorem mem_minsert [DecidableEq K] {t : List (K × V)} {k : K} {v : V} {p : K × V}
    (h : p ∈ minsert t k v) : p ∈ t ∨ p = (k, v) := by
  induction t with
  | nil => simp [minsert] at h; exact Or.inr h
  | cons q rest ih =>
      obtain ⟨a, b⟩ := q
      by_cases hk : k = a
      · rw [minsert, if_pos hk] at h
        rcases List.mem_cons.mp h with rfl | hm
        · exact Or.inr rfl
        · exact Or.inl (List.mem_cons_of_mem _ hm)
      · rw [minsert, if_neg hk] at h
        rcases List.mem_cons.mp h with rfl | hm
        · exact Or.inl (List.mem_cons_self _ _)
        · rcases ih hm with hm' | rfl
          · exact Or.inl (List.mem_cons_of_mem _ hm')
          · exact Or.inr rfl

/-- Shows `minsert` preserves duplicate-freedom of keys. -/
theorem pairwise_minsert [DecidableEq K] {t : List (K × V)} (k : K) (v : V)
    (h : t.Pairwise (fun p q => p.1 ≠ q.1)) :
    (minsert t k v).Pairwise (fun p q => p.1 ≠ q.1) := by
  induction t with
  | nil => simp [minsert]
  | cons p rest ih =>
      rw [List.pairwise_cons] at h
      by_cases hk : k = p.1
      · cases p
        rw [minsert, if_pos hk]
        rw [List.pairwise_cons]
        exact ⟨fun q hq => hk ▸ h.1 q hq, h.2⟩
      · cases p
        rw [minsert, if_neg hk]
        rw [List.pairwise_cons]
        constructor
        · intro q hq
          rcases mem_minsert hq with hmem | rfl
          · exact h.1 q hmem
          · exact fun hc => hk hc.symm
        · exact ih h.2

/-- Looking up in the result of a Go copy loop: the entry of the
duplicate-free source wins, else the entry of the accumulator. -/
theorem mfind_mergeInto [DecidableEq K] {src : List (K × V)}
    (acc : List (K × V)) (k : K)
    (h : src.Pairwise (fun p q => p.1 ≠ q.1)) :
    mfind (SMap.mergeInto acc src) k =
      match mfind src k with
      | some v => some v
      | none => mfind acc k := by
  induction src generalizing acc with
  | nil => simp [SMap.mergeInto, mfind]
  | cons p rest ih =>
      obtain ⟨a, b⟩ := p
      rw [List.pairwise_cons] at h
      have hstep : SMap.mergeInto acc ((a, b) :: rest) =
          SMap.mergeInto (minsert acc a b) rest := rfl
      rw [hstep, ih _ h.2]
      by_cases hk : k = a
      · subst hk
        have hrest : mfind rest k = none :=
          mfind_eq_none_of_not_mem_keys (by
            intro hmem
            rcases List.mem_map.mp hmem with ⟨q, hq, hq1⟩
            exact h.1 q hq hq1.symm)
        simp [hrest, mfind_minsert, mfind]
      · cases hr : mfind rest k with
        | some v => simp [mfind, hk, hr]
        | none => simp [mfind, hk, hr, mfind_minsert]

/-- The copy loop preserves duplicate-freedom of the accumulator keys. -/
theorem pairwise_mergeInto [DecidableEq K] {acc : List (K × V)}
    (src : List (K × V))
    (h : acc.Pairwise (fun p q => p.1 ≠ q.1)) :
    (SMap.mergeInto acc src).Pairwise (fun p q => p.1 ≠ q.1) := by
  induction src generalizing acc with
  | nil => exact h
  | cons p rest ih => exact ih (pairwise_minsert p.1 p.2 h)

namespace SMap

variable [DecidableEq K]

theorem contains_eq_chainFind (m : SMap K V) (key : K) :
    m.Contains key = (m.chainFind key).isSome := by
  induction m with
  | root t => rfl
  | shadowed t s ih =>
      rw [Contains, chainFind]
      cases h : mfind t key with
      | some v => simp [h]
      | none => simp [h, ih]

theorem get_eq_chainFind (m : SMap K V) (key : K) :
    m.Get key =
      match m.chainFind key with
      | some v => .ok v
      | none => .error TableKeysNotFound := by
  induction m with
  | root t => rfl
  | shadowed t s ih =>
      rw [Get, chainFind]
      cases h : mfind t key with
      | some v => rfl
      | none => exact ih

/-- The `t.shadow != nil && t.shadow.Contains(key)` check succeeds exactly
when the shadow chain (excluding local) holds the key. -/
def shadowFind : SMap K V → K → Option V
  | .root _, _ => none
  | .shadowed _ s, key => s.chainFind key

theorem shadowContains_eq_shadowFind (m : SMap K V) (key : K) :
    m.shadowContains key = (m.shadowFind key).isSome := by
  cases m with
  | root t => rfl
  | shadowed t s => exact contains_eq_chainFind s key

theorem toMap_pairwise {m : SMap K V} (h : m.WF) :
    m.ToMap.Pairwise (fun p q => p.1 ≠ q.1) := by
  cases m with
  | root t => exact h
  | shadowed t s =>
      exact pairwise_mergeInto _ (pairwise_mergeInto _ List.Pairwise.nil)

omit [DecidableEq K] in
theorem tbl_withTbl (m : SMap K V) (t : List (K × V)) : (m.withTbl t).tbl = t := by
  cases m <;> rfl

omit [DecidableEq K] in
theorem shadowOpt_withTbl (m : SMap K V) (t : List (K × V)) :
    (m.withTbl t).shadowOpt = m.shadowOpt := by
  cases m <;> rfl

end SMap

theorem mfind_some_mem [DecidableEq K] {t : List (K × V)} {k : K} {v : V}
    (h : mfind t k = some v) : (k, v) ∈ t := by
  induction t with
  | nil => simp [mfind] at h
  | cons p rest ih =>
      obtain ⟨a, b⟩ := p
      by_cases hk : k = a
      · rw [mfind, if_pos hk] at h
        subst hk
        cases h
        exact List.mem_cons_self _ _
      · rw [mfind, if_neg hk] at h
        exact List.mem_cons_of_mem _ (ih h)

namespace STable

variable [DecidableEq K1] [DecidableEq K2]

/-- Duplicate-free keys at both levels of one raw nested table. -/
def TblPairwise (t : List (K1 × List (K2 × V))) : Prop :=
  t.Pairwise (fun p q => p.1 ≠ q.1) ∧
    ∀ p ∈ t, p.2.Pairwise (fun a b => a.1 ≠ b.1)

omit [DecidableEq K1] [DecidableEq K2] in
theorem tblPairwise_nil : TblPairwise ([] : List (K1 × List (K2 × V))) :=
  ⟨List.Pairwise.nil, by intro p hp; simp at hp⟩

theorem tfind_twrite (t : List (K1 × List (K2 × V))) (k1 : K1) (k2 : K2) (v : V)
    (k1' : K1) (k2' : K2) :
    tfind (twrite t k1 k2 v) k1' k2' =
      if k1' = k1 ∧ k2' = k2 then some v else tfind t k1' k2' := by
  by_cases h1 : k1' = k1
  · subst h1
    rw [tfind, twrite, mfind_minsert, if_pos rfl]
    show mfind (minsert ((mfind t k1').getD []) k2 v) k2' = _
    rw [mfind_minsert]
    by_cases h2 : k2' = k2
    · simp [h2]
    · rw [if_neg h2, if_neg (fun h => h2 h.2)]
      cases hb : mfind t k1' with
      | some br => simp [tfind, hb]
      | none => simp [tfind, hb, mfind]
  · rw [tfind, twrite, mfind_minsert, if_neg h1, if_neg (fun h => h1 h.1)]
    rfl

theorem tblPairwise_twrite {t : List (K1 × List (K2 × V))} (k1 : K1) (k2 : K2)
    (v : V) (h : TblPairwise t) : TblPairwise (twrite t k1 k2 v) := by
  constructor
  · exact pairwise_minsert _ _ h.1
  · intro p hp
    rcases mem_minsert hp with hmem | rfl
    · exact h.2 p hmem
    · apply pairwise_minsert
      cases hb : mfind t k1 with
      | some br =>
          simp only [hb, Option.getD_some]
          exact h.2 (k1, br) (mfind_some_mem hb)
      | none => simp [hb]

/-- The inner Go loop of the flatten: writing the pairs of one branch under a
fixed first key does not touch other first keys. -/
theorem tfind_innerFold_ne {branch : List (K2 × V)}
    (acc : List (K1 × List (K2 × V))) (a : K1) (k1' : K1) (k2' : K2)
    (hk : k1' ≠ a) :
    tfind (branch.foldl (fun a' q => twrite a' a q.1 q.2) acc) k1' k2' =
      tfind acc k1' k2' := by
  induction branch generalizing acc with
  | nil => rfl
  | cons q rest ih =>
      rw [List.foldl_cons, ih]
      rw [tfind_twrite, if_neg (fun h => hk h.1)]

/-- The inner Go loop of the flatten at its own first key: the
entry of the duplicate-free branch wins, else the entry of the accumulator. -/
theorem tfind_innerFold_eq {branch : List (K2 × V)}
    (acc : List (K1 × List (K2 × V))) (a : K1) (k2' : K2)
    (h : branch.Pairwise (fun p q => p.1 ≠ q.1)) :
    tfind (branch.foldl (fun a' q => twrite a' a q.1 q.2) acc) a k2' =
      match mfind branch k2' with
      | some v => some v
      | none => tfind acc a k2' := by
  induction branch generalizing acc with
  | nil => simp [mfind]
  | cons q rest ih =>
      obtain ⟨kb, vb⟩ := q
      rw [List.pairwise_cons] at h
      rw [List.foldl_cons, ih _ h.2]
      by_cases hk : k2' = kb
      · subst hk
        have hrest : mfind rest k2' = none :=
          mfind_eq_none_of_not_mem_keys (by
            intro hmem
            rcases List.mem_map.mp hmem with ⟨q, hq, hq1⟩
            exact h.1 q hq hq1.symm)
        simp [hrest, mfind, tfind_twrite]
      · cases hr : mfind rest k2' with
        | some v => simp [mfind, hk, hr]
        | none =>
            simp only [hr, mfind, if_neg hk]
            rw [tfind_twrite, if_neg (fun hc => hk hc.2)]

theorem tblPairwise_innerFold {branch : List (K2 × V)}
    (acc : List (K1 × List (K2 × V))) (a : K1) (h : TblPairwise acc) :
    TblPairwise (branch.foldl (fun a' q => twrite a' a q.1 q.2) acc) := by
  induction branch generalizing acc with
  | nil => exact h
  | cons q rest ih => exact ih _ (tblPairwise_twrite _ _ _ h)

/-- Looking up in the result of the nested flatten loops: the
pair of the duplicate-free source wins, else the pair of the accumulator. -/
theorem tfind_tflattenInto {src : List (K1 × List (K2 × V))}
    (acc : List (K1 × List (K2 × V))) (k1 : K1) (k2 : K2)
    (h : TblPairwise src) :
    tfind (tflattenInto acc src) k1 k2 =
      match tfind src k1 k2 with
      | some v => some v
      | none => tfind acc k1 k2 := by
  induction src generalizing acc with
  | nil => simp [tflattenInto, tfind, mfind]
  | cons p rest ih =>
      obtain ⟨a, branch⟩ := p
      obtain ⟨houter, hinner⟩ := h
      rw [List.pairwise_cons] at houter
      have hstep : tflattenInto acc ((a, branch) :: rest) =
          tflattenInto (branch.foldl (fun a' q => twrite a' a q.1 q.2) acc)
            rest := rfl
      rw [hstep,
        ih _ ⟨houter.2, fun p hp => hinner p (List.mem_cons_of_mem _ hp)⟩]
      by_cases hk : k1 = a
      · subst hk
        have hrest : mfind rest k1 = none :=
          mfind_eq_none_of_not_mem_keys (by
            intro hmem
            rcases List.mem_map.mp hmem with ⟨q, hq, hq1⟩
            exact houter.1 q hq hq1.symm)
        rw [tfind_innerFold_eq _ _ _
          (hinner (k1, branch) (List.mem_cons_self _ _))]
        simp [tfind, mfind, hrest]
      · rw [tfind_innerFold_ne _ _ _ _ hk]
        simp [tfind, mfind, hk]

theorem tblPairwise_tflattenInto {src acc : List (K1 × List (K2 × V))}
    (h : TblPairwise acc) : TblPairwise (tflattenInto acc src) := by
  induction src generalizing acc with
  | nil => exact h
  | cons p rest ih => exact ih (tblPairwise_innerFold _ _ h)

theorem contains_eq_chainFindT (t : STable K1 K2 V) (k1 : K1) (k2 : K2) :
    t.Contains k1 k2 = (t.chainFind k1 k2).isSome := by
  induction t with
  | root tb => rfl
  | shadowed tb s ih =>
      rw [Contains, chainFind]
      cases h : tfind tb k1 k2 with
      | some v => simp [h]
      | none => simp [h, ih]

theorem get_eq_chainFindT (t : STable K1 K2 V) (k1 : K1) (k2 : K2) :
    t.Get k1 k2 =
      match t.chainFind k1 k2 with
      | some v => .ok v
      | none => .error TableKeysNotFound := by
  induction t with
  | root tb => rfl
  | shadowed tb s ih =>
      rw [Get, chainFind]
      cases h : tfind tb k1 k2 with
      | some v => rfl
      | none => exact ih

/-- The chain lookup seen by the `t.shadow != nil && ...` checks. -/
def shadowFind : STable K1 K2 V → K1 → K2 → Option V
  | .root _, _, _ => none
  | .shadowed _ s, k1, k2 => s.chainFind k1 k2

theorem shadowContains_eq_shadowFindT (t : STable K1 K2 V) (k1 : K1) (k2 : K2) :
    t.shadowContains k1 k2 = (t.shadowFind k1 k2).isSome := by
  cases t with
  | root tb => rfl
  | shadowed tb s => exact contains_eq_chainFindT s k1 k2

theorem shadowGet_eq_shadowFindT (t : STable K1 K2 V) (k1 : K1) (k2 : K2) :
    t.shadowGet k1 k2 =
      match t.shadowFind k1 k2 with
      | some v => .ok v
      | none => .error TableKeysNotFound := by
  cases t with
  | root tb => rfl
  | shadowed tb s => exact get_eq_chainFindT s k1 k2

theorem toMapT_tblPairwise {t : STable K1 K2 V} (h : t.WF) :
    TblPairwise (t.ToMap) := by
  cases t with
  | root tb => exact h
  | shadowed tb s =>
      exact tblPairwise_tflattenInto (tblPairwise_tflattenInto tblPairwise_nil)

omit [DecidableEq K1] [DecidableEq K2] in
theorem tbl_withTblT (t : STable K1 K2 V) (tb : List (K1 × List (K2 × V))) :
    (t.withTbl tb).tbl = tb := by
  cases t <;> rfl

omit [DecidableEq K1] [DecidableEq K2] in
theorem shadowOpt_withTblT (t : STable K1 K2 V) (tb : List (K1 × List (K2 × V))) :
    (t.withTbl tb).shadowOpt = t.shadowOpt := by
  cases t <;> rfl

end STable

theorem minsert_ne_nil [DecidableEq K] (t : List (K × V)) (k : K) (v : V) :
    minsert t k v ≠ [] := by
  cases t with
  | nil => simp [minsert]
  | cons p rest =>
      obtain ⟨a, b⟩ := p
      rw [minsert]
      split <;> simp

/-- Chain lookup after replacing the local table: the new local entry wins,
else the (unchanged) shadow chain. -/
theorem chainFind_withTbl [DecidableEq K] (m : SMap K V) (t : List (K × V))
    (key : K) :
    (m.withTbl t).chainFind key =
      match mfind t key with
      | some v => some v
      | none => m.shadowFind key := by
  cases m with
  | root t0 =>
      rw [SMap.withTbl, SMap.chainFind, SMap.shadowFind]
      cases mfind t key <;> rfl
  | shadowed t0 s => rfl

theorem chainFindT_withTbl [DecidableEq K1] [DecidableEq K2]
    (t : STable K1 K2 V) (tb : List (K1 × List (K2 × V))) (k1 : K1) (k2 : K2) :
    (t.withTbl tb).chainFind k1 k2 =
      match STable.tfind tb k1 k2 with
      | some v => some v
      | none => t.shadowFind k1 k2 := by
  cases t with
  | root t0 =>
      rw [STable.withTbl, STable.chainFind, STable.shadowFind]
      cases STable.tfind tb k1 k2 <;> rfl
  | shadowed t0 s => rfl

/-- Every first-level key of a raw nested table maps to a non-empty
second-level mapping. -/
def TBranchesNonempty (t : List (K1 × List (K2 × V))) : Prop :=
  ∀ p ∈ t, p.2 ≠ []

theorem tBranchesNonempty_twrite [DecidableEq K1] [DecidableEq K2]
    {t : List (K1 × List (K2 × V))} (k1 : K1) (k2 : K2) (v : V)
    (h : TBranchesNonempty t) : TBranchesNonempty (STable.twrite t k1 k2 v) := by
  intro p hp
  rcases mem_minsert hp with hmem | rfl
  · exact h p hmem
  · exact minsert_ne_nil _ _ _

/-!
## The claims
-/

/-- C1: the claim says that on a map with a shadow, `GetOrSet(key, def)`
with `key` absent from local and from the whole shadow chain writes `def`
into local and returns `def`.  The code instead takes the `t.shadow != nil`
branch, whose failed `shadow.Get` leaves `value` at the zero value and
performs no write: at the failing input below the call returns the zero
value (`none`) and leaves the map unchanged, contradicting the claim, the
doc comment of the method itself and the `Map` interface contract. -/
theorem c1_getOrSet_shadow_miss_does_not_write :
    SMap.GetOrSet (SMap.shadowed [] (SMap.root ([] : List (Nat × Nat)))) 1 42 =
        (none, SMap.shadowed [] (SMap.root [])) ∧
      SMap.GetOrSet
          (SMap.GetOrSet (SMap.shadowed [] (SMap.root ([] : List (Nat × Nat))))
              1 42).2 1 7 =
        (none, SMap.shadowed [] (SMap.root [])) := by
  exact ⟨rfl, rfl⟩

/-- C2: the claim says `ToMap()` on a shadowed map merges with local
winning on key collision.  The code copies the local entries first and then
overwrites them with the flattened shadow entries, so the shadow wins: with
local `(1 ↦ 10)` over shadow `(1 ↦ 20)`, `ToMap()` maps `1` to the shadow
value `20` even though `Get(1)` returns the local `10`. -/
theorem c2_toMap_shadow_wins_on_collision :
    mfind (SMap.ToMap (SMap.shadowed [(1, 10)] (SMap.root ([(1, 20)] :
        List (Nat × Nat))))) 1 = some 20 ∧
      SMap.Get (SMap.shadowed [(1, 10)] (SMap.root ([(1, 20)] :
        List (Nat × Nat)))) 1 = Except.ok 10 := by
  exact ⟨rfl, rfl⟩

/-- C3 counterexample: from a fresh root table, `Add(1,1,5)` succeeds and
then `Delete(1,1)` succeeds, yet in the state observed after the two
operations the first-level key `1` is present in local storage with an
empty second-level mapping — the claimed invariant fails after `Delete`
removes the last second-level entry. -/
theorem c3_counterexample_delete_leaves_empty_branch :
    ((STable.root ([] : List (Nat × List (Nat × Nat)))).Add 1 1 5).1 = none ∧
      ((((STable.root ([] : List (Nat × List (Nat × Nat)))).Add 1 1 5).2).Delete
          1 1).1 = none ∧
      mfind ((((((STable.root ([] : List (Nat × List (Nat × Nat)))).Add
          1 1 5).2).Delete 1 1).2).tbl) 1 = some [] := by
  exact ⟨rfl, rfl, rfl⟩

/-- C3 (amended): the write operations `Add`, `Set` and `GetOrSet` preserve
the invariant that every first-level key in local storage has a non-empty
second-level mapping, but `Delete(k1, k2)` that removes the last
second-level entry under `k1` leaves `k1` present in local with an empty
second-level mapping. -/
theorem c3_writes_preserve_nonempty_branches_delete_does_not
    [DecidableEq K1] [DecidableEq K2] (t : STable K1 K2 V)
    (k1 : K1) (k2 : K2) (v : V) (h : TBranchesNonempty t.tbl) :
    TBranchesNonempty ((t.Add k1 k2 v).2).tbl ∧
      TBranchesNonempty ((t.Set k1 k2 v).2).tbl ∧
      TBranchesNonempty ((t.GetOrSet k1 k2 v).2).tbl ∧
      (∀ v0, mfind t.tbl k1 = some [(k2, v0)] →
        mfind ((t.Delete k1 k2).2).tbl k1 = some []) := by
  refine ⟨?_, ?_, ?_, ?_⟩
  · cases h1 : mfind t.tbl k1 with
    | none =>
        simp only [STable.Add, h1, STable.tbl_withTblT]
        exact tBranchesNonempty_twrite _ _ _ h
    | some branch =>
        by_cases h2 : (mfind branch k2).isSome
        · simp only [STable.Add, h1, if_pos h2]
          exact h
        · simp only [STable.Add, h1, if_neg h2, STable.tbl_withTblT]
          exact tBranchesNonempty_twrite _ _ _ h
  · simp only [STable.Set, STable.tbl_withTblT]
    exact tBranchesNonempty_twrite _ _ _ h
  · cases h1 : mfind t.tbl k1 with
    | none =>
        by_cases hs : t.shadowContains k1 k2
        · simp only [STable.GetOrSet, h1, if_pos hs]
          cases t.shadowGet k1 k2 with
          | ok v' => exact h
          | error e => exact h
        · simp only [STable.GetOrSet, h1, if_neg hs, STable.tbl_withTblT]
          intro p hp
          rcases mem_minsert hp with hmem | rfl
          · exact h p hmem
          · exact minsert_ne_nil _ _ _
    | some branch =>
        cases h2 : mfind branch k2 with
        | some v' => simp only [STable.GetOrSet, h1, h2]; exact h
        | none =>
            by_cases hs : t.shadowContains k1 k2
            · simp only [STable.GetOrSet, h1, h2, if_pos hs]
              cases t.shadowGet k1 k2 with
              | ok v' => exact h
              | error e => exact h
            · simp only [STable.GetOrSet, h1, h2, if_neg hs,
                STable.tbl_withTblT]
              intro p hp
              rcases mem_minsert hp with hmem | rfl
              · exact h p hmem
              · exact minsert_ne_nil _ _ _
  · intro v0 h1
    simp only [STable.Delete, h1, mfind, if_pos rfl, Option.isSome_some,
      if_true, STable.tbl_withTblT]
    rw [mfind_minsert, if_pos rfl]
    congr 1
    simp [mdelete]

/-- C3 witness: the amended theorem applied to the concrete table
`(1 ↦ (1 ↦ 5))` at keys `(1, 2)` with value `7`. -/
theorem c3_witness :
    TBranchesNonempty (((STable.root ([(1, [(1, 5)])] :
        List (Nat × List (Nat × Nat)))).Add 1 2 7).2).tbl ∧
      TBranchesNonempty (((STable.root ([(1, [(1, 5)])] :
        List (Nat × List (Nat × Nat)))).Set 1 2 7).2).tbl ∧
      TBranchesNonempty (((STable.root ([(1, [(1, 5)])] :
        List (Nat × List (Nat × Nat)))).GetOrSet 1 2 7).2).tbl ∧
      (∀ v0, mfind (STable.root ([(1, [(1, 5)])] :
          List (Nat × List (Nat × Nat)))).tbl 1 = some [(2, v0)] →
        mfind (((STable.root ([(1, [(1, 5)])] :
          List (Nat × List (Nat × Nat)))).Delete 1 2).2).tbl 1 = some []) :=
  c3_writes_preserve_nonempty_branches_delete_does_not
    (STable.root [(1, [(1, 5)])]) 1 2 7 (by unfold TBranchesNonempty; decide)

/-- C4: for both families, `Delete` succeeds and removes the key from
local exactly when the key is present in local; when the key is absent
from local but present in the shadow chain it fails with the distinct
"cannot delete from shadow" error leaving the container untouched; when
the key is absent everywhere it fails with `TableKeysNotFound`. -/
theorem c4_delete_local_else_shadow_error_else_not_found
    [DecidableEq K] [DecidableEq K1] [DecidableEq K2]
    (m : SMap K V) (key : K) (t : STable K1 K2 V) (k1 : K1) (k2 : K2) :
    ((m.Delete key).1 = none ↔ (mfind m.tbl key).isSome) ∧
      ((mfind m.tbl key).isSome →
        (m.Delete key).2 = m.withTbl (mdelete m.tbl key) ∧
        mfind ((m.Delete key).2).tbl key = none ∧
        (∀ k', k' ≠ key →
          mfind ((m.Delete key).2).tbl k' = mfind m.tbl k') ∧
        ((m.Delete key).2).shadowOpt = m.shadowOpt) ∧
      (mfind m.tbl key = none → m.shadowFind key ≠ none →
        m.Delete key = (some cannotDeleteFromShadowTable, m)) ∧
      (mfind m.tbl key = none → m.shadowFind key = none →
        m.Delete key = (some TableKeysNotFound, m)) ∧
      cannotDeleteFromShadowTable ≠ TableKeysNotFound ∧
      ((t.Delete k1 k2).1 = none ↔ (STable.tfind t.tbl k1 k2).isSome) ∧
      ((STable.tfind t.tbl k1 k2).isSome →
        STable.tfind ((t.Delete k1 k2).2).tbl k1 k2 = none ∧
        (∀ k1' k2', ¬(k1' = k1 ∧ k2' = k2) →
          STable.tfind ((t.Delete k1 k2).2).tbl k1' k2' =
            STable.tfind t.tbl k1' k2') ∧
        ((t.Delete k1 k2).2).shadowOpt = t.shadowOpt) ∧
      (STable.tfind t.tbl k1 k2 = none → t.shadowFind k1 k2 ≠ none →
        t.Delete k1 k2 = (some cannotDeleteFromShadowTable, t)) ∧
      (STable.tfind t.tbl k1 k2 = none → t.shadowFind k1 k2 = none →
        t.Delete k1 k2 = (some TableKeysNotFound, t)) := by
  refine ⟨?_, ?_, ?_, ?_, by decide, ?_, ?_, ?_, ?_⟩
  · cases hm : mfind m.tbl key with
    | some v =>
        simp [SMap.Delete, hm]
    | none =>
        by_cases hs : m.shadowContains key <;> simp [SMap.Delete, hm, hs]
  · intro hm
    rw [Option.isSome_iff_exists] at hm
    obtain ⟨v, hv⟩ := hm
    have hd : m.Delete key = (none, m.withTbl (mdelete m.tbl key)) := by
      simp [SMap.Delete, hv]
    rw [hd]
    refine ⟨rfl, ?_, ?_, SMap.shadowOpt_withTbl _ _⟩
    · rw [SMap.tbl_withTbl, mfind_mdelete, if_pos rfl]
    · intro k' hk'
      rw [SMap.tbl_withTbl, mfind_mdelete, if_neg hk']
  · intro hm hs
    have hs' : m.shadowContains key = true := by
      rw [SMap.shadowContains_eq_shadowFind, Option.isSome_iff_exists]
      cases h : m.shadowFind key with
      | none => exact absurd h hs
      | some v => exact ⟨v, rfl⟩
    simp [SMap.Delete, hm, hs']
  · intro hm hs
    have hs' : m.shadowContains key = false := by
      rw [SMap.shadowContains_eq_shadowFind, hs]
      rfl
    simp [SMap.Delete, hm, hs']
  · cases h1 : mfind t.tbl k1 with
    | some branch =>
        cases h2 : mfind branch k2 with
        | some v =>
            simp [STable.Delete, STable.tfind, h1, h2]
        | none =>
            by_cases hs : t.shadowContains k1 k2 <;>
              simp [STable.Delete, STable.tfind, h1, h2, hs]
    | none =>
        by_cases hs : t.shadowContains k1 k2 <;>
          simp [STable.Delete, STable.tfind, h1, hs]
  · intro hm
    rw [STable.tfind] at hm
    cases h1 : mfind t.tbl k1 with
    | none => rw [h1] at hm; simp at hm
    | some branch =>
        rw [h1] at hm
        replace hm : (mfind branch k2).isSome := hm
        rw [Option.isSome_iff_exists] at hm
        obtain ⟨v, hv⟩ := hm
        have hd : t.Delete k1 k2 =
            (none, t.withTbl (minsert t.tbl k1 (mdelete branch k2))) := by
          simp [STable.Delete, h1, hv]
        rw [hd]
        refine ⟨?_, ?_, STable.shadowOpt_withTblT _ _⟩
        · rw [STable.tbl_withTblT, STable.tfind, mfind_minsert, if_pos rfl]
          show mfind (mdelete branch k2) k2 = none
          rw [mfind_mdelete, if_pos rfl]
        · intro k1' k2' hk
          rw [STable.tbl_withTblT]
          by_cases hk1 : k1' = k1
          · subst hk1
            have hk2 : k2' ≠ k2 := fun hc => hk ⟨rfl, hc⟩
            rw [STable.tfind, mfind_minsert, if_pos rfl]
            show mfind (mdelete branch k2) k2' = STable.tfind t.tbl k1' k2'
            rw [mfind_mdelete, if_neg hk2, STable.tfind, h1]
          · rw [STable.tfind, mfind_minsert, if_neg hk1, STable.tfind]
  · intro hm hs
    have hs' : t.shadowContains k1 k2 = true := by
      rw [STable.shadowContains_eq_shadowFindT, Option.isSome_iff_exists]
      cases h : t.shadowFind k1 k2 with
      | none => exact absurd h hs
      | some v => exact ⟨v, rfl⟩
    rw [STable.tfind] at hm
    cases h1 : mfind t.tbl k1 with
    | none => simp [STable.Delete, h1, hs']
    | some branch =>
        rw [h1] at hm
        replace hm : mfind branch k2 = none := hm
        simp [STable.Delete, h1, hm, hs']
  · intro hm hs
    have hs' : t.shadowContains k1 k2 = false := by
      rw [STable.shadowContains_eq_shadowFindT, hs]
      rfl
    rw [STable.tfind] at hm
    cases h1 : mfind t.tbl k1 with
    | none => simp [STable.Delete, h1, hs']
    | some branch =>
        rw [h1] at hm
        replace hm : mfind branch k2 = none := hm
        simp [STable.Delete, h1, hm, hs']

/-- C4 witness: the map `(1 ↦ 2)` shadowing `(3 ↦ 4)` and the analogous
table, deleting a locally present key. -/
theorem c4_witness :
    (((SMap.shadowed [(1, 2)] (SMap.root ([(3, 4)] : List (Nat × Nat)))).Delete
        1).1 = none ↔
      (mfind (SMap.shadowed [(1, 2)] (SMap.root ([(3, 4)] :
        List (Nat × Nat)))).tbl 1).isSome) ∧
    (SMap.shadowed [(1, 2)] (SMap.root ([(3, 4)] : List (Nat × Nat)))).Delete 3 =
      (some cannotDeleteFromShadowTable,
        SMap.shadowed [(1, 2)] (SMap.root [(3, 4)])) ∧
    (STable.shadowed [(1, [(1, 2)])] (STable.root ([(3, [(3, 4)])] :
        List (Nat × List (Nat × Nat))))).Delete 5 5 =
      (some TableKeysNotFound,
        STable.shadowed [(1, [(1, 2)])] (STable.root [(3, [(3, 4)])])) := by
  have h1 := c4_delete_local_else_shadow_error_else_not_found
    (SMap.shadowed [(1, 2)] (SMap.root ([(3, 4)] : List (Nat × Nat)))) 1
    (STable.shadowed [(1, [(1, 2)])] (STable.root ([(3, [(3, 4)])] :
      List (Nat × List (Nat × Nat))))) 5 5
  have h2 := c4_delete_local_else_shadow_error_else_not_found
    (SMap.shadowed [(1, 2)] (SMap.root ([(3, 4)] : List (Nat × Nat)))) 3
    (STable.shadowed [(1, [(1, 2)])] (STable.root ([(3, [(3, 4)])] :
      List (Nat × List (Nat × Nat))))) 5 5
  refine ⟨h1.1, ?_, ?_⟩
  · exact h2.2.2.1 (by decide) (by decide)
  · exact h1.2.2.2.2.2.2.2.2 (by decide) (by decide)

/-- C5: for both families, `Add` fails with `TableDuplicateKeys` exactly
when the key is already present in local (the shadow chain is never
consulted); adding a key present only in the shadow chain succeeds, stores
the value in local, a subsequent `Get` on the container returns the new
local value, and the shadow container itself is left untouched. -/
theorem c5_add_checks_duplicates_locally_only
    [DecidableEq K] [DecidableEq K1] [DecidableEq K2]
    (m : SMap K V) (key : K) (v : V) (t : STable K1 K2 V) (k1 : K1) (k2 : K2)
    (w : V) :
    (((m.Add key v).1 = some TableDuplicateKeys) ↔
        (mfind m.tbl key).isSome) ∧
      (mfind m.tbl key = none →
        m.Add key v = (none, m.withTbl (minsert m.tbl key v)) ∧
        ((m.Add key v).2).Get key = Except.ok v ∧
        ((m.Add key v).2).shadowOpt = m.shadowOpt ∧
        ((m.Add key v).2).shadowFind key = m.shadowFind key) ∧
      (((t.Add k1 k2 w).1 = some TableDuplicateKeys) ↔
        (STable.tfind t.tbl k1 k2).isSome) ∧
      (STable.tfind t.tbl k1 k2 = none →
        (t.Add k1 k2 w).1 = none ∧
        (t.Add k1 k2 w).2 = t.withTbl (STable.twrite t.tbl k1 k2 w) ∧
        ((t.Add k1 k2 w).2).Get k1 k2 = Except.ok w ∧
        ((t.Add k1 k2 w).2).shadowOpt = t.shadowOpt ∧
        ((t.Add k1 k2 w).2).shadowFind k1 k2 = t.shadowFind k1 k2) := by
  refine ⟨?_, ?_, ?_, ?_⟩
  · cases hm : mfind m.tbl key with
    | some v' => simp [SMap.Add, hm]
    | none => simp [SMap.Add, hm]
  · intro hm
    have ha : m.Add key v = (none, m.withTbl (minsert m.tbl key v)) := by
      simp [SMap.Add, hm]
    rw [ha]
    refine ⟨rfl, ?_, SMap.shadowOpt_withTbl _ _, ?_⟩
    · rw [SMap.get_eq_chainFind, chainFind_withTbl, mfind_minsert,
        if_pos rfl]
    · cases m <;> rfl
  · cases h1 : mfind t.tbl k1 with
    | none => simp [STable.Add, STable.tfind, h1]
    | some branch =>
        cases h2 : mfind branch k2 with
        | some v' => simp [STable.Add, STable.tfind, h1, h2]
        | none => simp [STable.Add, STable.tfind, h1, h2]
  · intro hm
    have hadd : t.Add k1 k2 w = (none, t.withTbl (STable.twrite t.tbl k1 k2 w)) := by
      rw [STable.tfind] at hm
      cases h1 : mfind t.tbl k1 with
      | none => simp [STable.Add, h1]
      | some branch =>
          rw [h1] at hm
          replace hm : mfind branch k2 = none := hm
          simp [STable.Add, h1, hm]
    rw [hadd]
    refine ⟨rfl, rfl, ?_, STable.shadowOpt_withTblT _ _, ?_⟩
    · rw [STable.get_eq_chainFindT, chainFindT_withTbl, STable.tfind_twrite,
        if_pos ⟨rfl, rfl⟩]
    · cases t <;> rfl

/-- C5 witness: the map `()` shadowing `(1 ↦ 9)` (adding the shadow-only
key `1`) and the analogous table. -/
theorem c5_witness :
    (((SMap.shadowed [] (SMap.root ([(1, 9)] : List (Nat × Nat)))).Add 1 5).1 =
        some TableDuplicateKeys ↔
      (mfind (SMap.shadowed [] (SMap.root ([(1, 9)] :
        List (Nat × Nat)))).tbl 1).isSome) ∧
    (((SMap.shadowed [] (SMap.root ([(1, 9)] : List (Nat × Nat)))).Add
        1 5).2).Get 1 = Except.ok 5 ∧
    (((STable.shadowed [] (STable.root ([(1, [(1, 9)])] :
        List (Nat × List (Nat × Nat))))).Add 1 1 5).2).Get 1 1 =
      Except.ok 5 := by
  have h := c5_add_checks_duplicates_locally_only
    (SMap.shadowed [] (SMap.root ([(1, 9)] : List (Nat × Nat)))) 1 5
    (STable.shadowed [] (STable.root ([(1, [(1, 9)])] :
      List (Nat × List (Nat × Nat))))) 1 1 5
  exact ⟨h.1, (h.2.1 (by decide)).2.1, (h.2.2.2 (by decide)).2.2.1⟩

/-- C6: `Table.GetOrSet(k1, k2, newVal)` implements exactly the four-case
tie-break of the spec: local hit returns the local value with no write;
local `k1` branch without `k2` falls to the shadow chain value with no
write when the chain has the pair, otherwise writes under the existing
branch; absent `k1` falls to the shadow chain value with no write when the
chain has the pair, otherwise creates the branch and writes. -/
theorem c6_table_getOrSet_four_cases [DecidableEq K1] [DecidableEq K2]
    (t : STable K1 K2 V) (k1 : K1) (k2 : K2) (newVal : V) :
    (∀ b v, mfind t.tbl k1 = some b → mfind b k2 = some v →
        t.GetOrSet k1 k2 newVal = (some v, t)) ∧
      (∀ b v, mfind t.tbl k1 = some b → mfind b k2 = none →
        t.shadowFind k1 k2 = some v →
        t.GetOrSet k1 k2 newVal = (some v, t)) ∧
      (∀ b, mfind t.tbl k1 = some b → mfind b k2 = none →
        t.shadowFind k1 k2 = none →
        t.GetOrSet k1 k2 newVal =
          (some newVal, t.withTbl (minsert t.tbl k1 (minsert b k2 newVal)))) ∧
      (∀ v, mfind t.tbl k1 = none → t.shadowFind k1 k2 = some v →
        t.GetOrSet k1 k2 newVal = (some v, t)) ∧
      (mfind t.tbl k1 = none → t.shadowFind k1 k2 = none →
        t.GetOrSet k1 k2 newVal =
          (some newVal, t.withTbl (minsert t.tbl k1 (minsert [] k2 newVal)))) := by
  refine ⟨?_, ?_, ?_, ?_, ?_⟩
  · intro b v h1 h2
    simp [STable.GetOrSet, h1, h2]
  · intro b v h1 h2 hs
    have hc : t.shadowContains k1 k2 = true := by
      rw [STable.shadowContains_eq_shadowFindT, hs]
      rfl
    have hg : t.shadowGet k1 k2 = Except.ok v := by
      rw [STable.shadowGet_eq_shadowFindT, hs]
    simp [STable.GetOrSet, h1, h2, hc, hg]
  · intro b h1 h2 hs
    have hc : t.shadowContains k1 k2 = false := by
      rw [STable.shadowContains_eq_shadowFindT, hs]
      rfl
    simp [STable.GetOrSet, h1, h2, hc]
  · intro v h1 hs
    have hc : t.shadowContains k1 k2 = true := by
      rw [STable.shadowContains_eq_shadowFindT, hs]
      rfl
    have hg : t.shadowGet k1 k2 = Except.ok v := by
      rw [STable.shadowGet_eq_shadowFindT, hs]
    simp [STable.GetOrSet, h1, hc, hg]
  · intro h1 hs
    have hc : t.shadowContains k1 k2 = false := by
      rw [STable.shadowContains_eq_shadowFindT, hs]
      rfl
    simp [STable.GetOrSet, h1, hc]

/-- C6 witness: the table `(1 ↦ (1 ↦ 2))` shadowing `(3 ↦ (3 ↦ 4))`,
exercising a local hit and a shadow read-through. -/
theorem c6_witness :
    (STable.shadowed [(1, [(1, 2)])] (STable.root ([(3, [(3, 4)])] :
        List (Nat × List (Nat × Nat))))).GetOrSet 1 1 9 =
      (some 2,
        STable.shadowed [(1, [(1, 2)])] (STable.root [(3, [(3, 4)])])) ∧
    (STable.shadowed [(1, [(1, 2)])] (STable.root ([(3, [(3, 4)])] :
        List (Nat × List (Nat × Nat))))).GetOrSet 3 3 9 =
      (some 4,
        STable.shadowed [(1, [(1, 2)])] (STable.root [(3, [(3, 4)])])) := by
  have h1 := c6_table_getOrSet_four_cases
    (STable.shadowed [(1, [(1, 2)])] (STable.root ([(3, [(3, 4)])] :
      List (Nat × List (Nat × Nat))))) 1 1 9
  have h2 := c6_table_getOrSet_four_cases
    (STable.shadowed [(1, [(1, 2)])] (STable.root ([(3, [(3, 4)])] :
      List (Nat × List (Nat × Nat))))) 3 3 9
  exact ⟨h1.1 [(1, 2)] 2 (by decide) (by decide),
    h2.2.2.2.1 4 (by decide) (by decide)⟩

/-- C7: a write operation that returns an error leaves the whole container
(local storage and shadow chain) exactly as it was: `Add` and `Delete`
return the receiver unchanged on every failure, and `Set` never fails. -/
theorem c7_failed_writes_mutate_nothing
    [DecidableEq K] [DecidableEq K1] [DecidableEq K2]
    (m : SMap K V) (key : K) (v : V) (t : STable K1 K2 V) (k1 : K1) (k2 : K2)
    (w : V) :
    ((m.Add key v).1.isSome → (m.Add key v).2 = m) ∧
      ((m.Delete key).1.isSome → (m.Delete key).2 = m) ∧
      (m.Set key v).1 = none ∧
      ((t.Add k1 k2 w).1.isSome → (t.Add k1 k2 w).2 = t) ∧
      ((t.Delete k1 k2).1.isSome → (t.Delete k1 k2).2 = t) ∧
      (t.Set k1 k2 w).1 = none := by
  refine ⟨?_, ?_, rfl, ?_, ?_, rfl⟩
  · intro he
    cases hm : mfind m.tbl key with
    | some v' => simp [SMap.Add, hm]
    | none => simp [SMap.Add, hm] at he
  · intro he
    cases hm : mfind m.tbl key with
    | some v' => simp [SMap.Delete, hm] at he
    | none =>
        by_cases hs : m.shadowContains key <;> simp [SMap.Delete, hm, hs]
  · intro he
    cases h1 : mfind t.tbl k1 with
    | none => simp [STable.Add, h1] at he
    | some branch =>
        cases h2 : mfind branch k2 with
        | some v' => simp [STable.Add, h1, h2]
        | none => simp [STable.Add, h1, h2] at he
  · intro he
    cases h1 : mfind t.tbl k1 with
    | none =>
        by_cases hs : t.shadowContains k1 k2 <;> simp [STable.Delete, h1, hs]
    | some branch =>
        cases h2 : mfind branch k2 with
        | some v' => simp [STable.Delete, h1, h2] at he
        | none =>
            by_cases hs : t.shadowContains k1 k2 <;>
              simp [STable.Delete, h1, h2, hs]

/-- C7 witness: a duplicate `Add` on the map `(1 ↦ 2)` and a `Delete` of an
absent pair on the table `(1 ↦ (1 ↦ 2))`. -/
theorem c7_witness :
    ((SMap.root ([(1, 2)] : List (Nat × Nat))).Add 1 5).2 =
        SMap.root [(1, 2)] ∧
      ((STable.root ([(1, [(1, 2)])] :
          List (Nat × List (Nat × Nat)))).Delete 3 3).2 =
        STable.root [(1, [(1, 2)])] := by
  have h := c7_failed_writes_mutate_nothing
    (SMap.root ([(1, 2)] : List (Nat × Nat))) 1 5
    (STable.root ([(1, [(1, 2)])] : List (Nat × List (Nat × Nat)))) 3 3 9
  exact ⟨h.1 (by decide), h.2.2.2.2.1 (by decide)⟩

/-- C8: `ShadowCopy()` returns a container with empty local storage whose
shadow is the receiver, and `ToMap()` on the fresh copy agrees with
`ToMap()` on the original at every key (at every key pair for tables). -/
theorem c8_shadowCopy_toMap_agrees
    [DecidableEq K] [DecidableEq K1] [DecidableEq K2]
    (m : SMap K V) (t : STable K1 K2 V) (hm : m.WF) (ht : t.WF) :
    m.ShadowCopy.tbl = [] ∧
      m.ShadowCopy.shadowOpt = some m ∧
      (∀ key, mfind (m.ShadowCopy.ToMap) key = mfind m.ToMap key) ∧
      t.ShadowCopy.tbl = [] ∧
      t.ShadowCopy.shadowOpt = some t ∧
      (∀ k1 k2, STable.tfind (t.ShadowCopy.ToMap) k1 k2 =
        STable.tfind t.ToMap k1 k2) := by
  refine ⟨rfl, rfl, ?_, rfl, rfl, ?_⟩
  · intro key
    have h1 : m.ShadowCopy.ToMap = SMap.mergeInto [] m.ToMap := rfl
    rw [h1, mfind_mergeInto _ _ (SMap.toMap_pairwise hm)]
    cases mfind m.ToMap key <;> rfl
  · intro k1 k2
    have h1 : t.ShadowCopy.ToMap = STable.tflattenInto [] t.ToMap := rfl
    rw [h1, STable.tfind_tflattenInto _ _ _ (STable.toMapT_tblPairwise ht)]
    cases STable.tfind t.ToMap k1 k2 <;> rfl

/-- C8 witness: the map `(1 ↦ 10)` shadowing `(1 ↦ 20, 2 ↦ 5)` and the
analogous table. -/
theorem c8_witness :
    (SMap.shadowed [(1, 10)] (SMap.root ([(1, 20), (2, 5)] :
        List (Nat × Nat)))).ShadowCopy.tbl = [] ∧
      mfind ((SMap.shadowed [(1, 10)] (SMap.root ([(1, 20), (2, 5)] :
          List (Nat × Nat)))).ShadowCopy.ToMap) 2 =
        mfind (SMap.shadowed [(1, 10)] (SMap.root ([(1, 20), (2, 5)] :
          List (Nat × Nat)))).ToMap 2 ∧
      STable.tfind ((STable.shadowed [(1, [(1, 10)])]
          (STable.root ([(1, [(1, 20), (2, 30)])] :
            List (Nat × List (Nat × Nat))))).ShadowCopy.ToMap) 1 2 =
        STable.tfind (STable.shadowed [(1, [(1, 10)])]
          (STable.root ([(1, [(1, 20), (2, 30)])] :
            List (Nat × List (Nat × Nat))))).ToMap 1 2 := by
  have h := c8_shadowCopy_toMap_agrees
    (SMap.shadowed [(1, 10)] (SMap.root ([(1, 20), (2, 5)] :
      List (Nat × Nat))))
    (STable.shadowed [(1, [(1, 10)])] (STable.root ([(1, [(1, 20), (2, 30)])] :
      List (Nat × List (Nat × Nat)))))
    (by unfold SMap.WF; exact ⟨by decide, by decide⟩)
    (by unfold STable.WF; exact ⟨⟨by decide, by decide⟩, by decide, by decide⟩)
  exact ⟨h.1, h.2.2.1 2, h.2.2.2.2.2 1 2⟩

/-- C9: on a map whose shadow reference is absent, every operation of the
shadow-aware implementation returns the same result and produces the same
local storage as the flat, shadowless implementation, and the result stays
shadowless — so whole operation sequences coincide. -/
theorem c9_root_refines_flat_map [DecidableEq K]
    (tbl : List (K × V)) (key : K) (v d : V) :
    (FMap.Add ⟨tbl⟩ key v).1 = (SMap.Add (.root tbl) key v).1 ∧
      (SMap.Add (.root tbl) key v).2 = .root ((FMap.Add ⟨tbl⟩ key v).2).tbl ∧
      FMap.Contains ⟨tbl⟩ key = SMap.Contains (.root tbl) key ∧
      (FMap.Delete ⟨tbl⟩ key).1 = (SMap.Delete (.root tbl) key).1 ∧
      (SMap.Delete (.root tbl) key).2 =
        .root ((FMap.Delete ⟨tbl⟩ key).2).tbl ∧
      FMap.Get ⟨tbl⟩ key = SMap.Get (.root tbl) key ∧
      FMap.GetOrDefault ⟨tbl⟩ key d = SMap.GetOrDefault (.root tbl) key d ∧
      (FMap.GetOrSet ⟨tbl⟩ key v).1 = (SMap.GetOrSet (.root tbl) key v).1 ∧
      (SMap.GetOrSet (.root tbl) key v).2 =
        .root ((FMap.GetOrSet ⟨tbl⟩ key v).2).tbl ∧
      (FMap.Set ⟨tbl⟩ key v).1 = (SMap.Set (.root tbl) key v).1 ∧
      (SMap.Set (.root tbl) key v).2 = .root ((FMap.Set ⟨tbl⟩ key v).2).tbl ∧
      FMap.ToMap ⟨tbl⟩ = SMap.ToMap (.root tbl) := by
  refine ⟨?_, ?_, rfl, ?_, ?_, rfl, rfl, ?_, ?_, rfl, rfl, rfl⟩
  · cases h : mfind tbl key <;> simp [FMap.Add, SMap.Add, SMap.tbl, h]
  · cases h : mfind tbl key <;>
      simp [FMap.Add, SMap.Add, SMap.tbl, SMap.withTbl, h]
  · cases h : mfind tbl key <;>
      simp [FMap.Delete, SMap.Delete, SMap.tbl, SMap.shadowContains, h]
  · cases h : mfind tbl key <;>
      simp [FMap.Delete, SMap.Delete, SMap.tbl, SMap.withTbl,
        SMap.shadowContains, h]
  · cases h : mfind tbl key with
    | some v' => simp [FMap.GetOrSet, SMap.GetOrSet, h]
    | none =>
        simp [FMap.GetOrSet, SMap.GetOrSet, h, mfind_minsert]
  · cases h : mfind tbl key with
    | some v' => simp [FMap.GetOrSet, SMap.GetOrSet, h]
    | none => simp [FMap.GetOrSet, SMap.GetOrSet, h]

/-- C9 witness: the flat map and the shadowless layered map over the table
`[(1, 2)]` agree on `Get 1`. -/
theorem c9_witness :
    FMap.Get (⟨[(1, 2)]⟩ : FMap Nat Nat) 1 =
      SMap.Get (SMap.root [(1, 2)]) 1 :=
  (c9_root_refines_flat_map [(1, 2)] 1 5 7).2.2.2.2.2.1

/-- C10: every error a Map operation can return is one of the Table
family error values — `Add` on a locally duplicate key returns
`TableDuplicateKeys` ("the given keys already exist"), `Get` and `Delete`
on a key absent everywhere return `TableKeysNotFound` ("no value was found
for the given keys") — and none of them ever returns the `MapKeyNotFound`
or `MapDuplicateKey` values declared in map.go. -/
theorem c10_map_returns_table_errors [DecidableEq K]
    (m : SMap K V) (key : K) (v : V) :
    ((mfind m.tbl key).isSome →
        (m.Add key v).1 = some TableDuplicateKeys) ∧
      (m.chainFind key = none → m.Get key = Except.error TableKeysNotFound) ∧
      (m.chainFind key = none →
        (m.Delete key).1 = some TableKeysNotFound) ∧
      (∀ e, (m.Add key v).1 = some e →
        e ≠ MapKeyNotFound ∧ e ≠ MapDuplicateKey) ∧
      (∀ e, (m.Delete key).1 = some e →
        e ≠ MapKeyNotFound ∧ e ≠ MapDuplicateKey) ∧
      (∀ e, m.Get key = Except.error e →
        e ≠ MapKeyNotFound ∧ e ≠ MapDuplicateKey) ∧
      (m.Set key v).1 = none ∧
      TableDuplicateKeys.msg = "the given keys already exist" ∧
      TableKeysNotFound.msg = "no value was found for the given keys" := by
  have hget : ∀ e, m.Get key = Except.error e → e = TableKeysNotFound := by
    intro e he
    rw [SMap.get_eq_chainFind] at he
    cases h : m.chainFind key with
    | some v' => rw [h] at he; cases he
    | none => rw [h] at he; cases he; rfl
  refine ⟨?_, ?_, ?_, ?_, ?_, ?_, rfl, rfl, rfl⟩
  · intro hm
    rw [Option.isSome_iff_exists] at hm
    obtain ⟨v', hv⟩ := hm
    simp [SMap.Add, hv]
  · intro hchain
    rw [SMap.get_eq_chainFind, hchain]
  · intro hchain
    have hm : mfind m.tbl key = none := by
      cases m with
      | root t => exact hchain
      | shadowed t s =>
          rw [SMap.chainFind] at hchain
          cases h : mfind t key with
          | some v' => rw [h] at hchain; cases hchain
          | none => exact h
    have hs : m.shadowContains key = false := by
      rw [SMap.shadowContains_eq_shadowFind]
      cases m with
      | root t => rfl
      | shadowed t s =>
          rw [SMap.chainFind] at hchain
          cases h : mfind t key with
          | some v' => rw [h] at hchain; cases hchain
          | none =>
              rw [h] at hchain
              replace hchain : s.chainFind key = none := hchain
              rw [SMap.shadowFind, hchain]
              rfl
    simp [SMap.Delete, hm, hs]
  · intro e he
    cases hm : mfind m.tbl key with
    | some v' =>
        have : e = TableDuplicateKeys := by
          simp [SMap.Add, hm] at he
          exact he.symm
        subst this
        exact ⟨by decide, by decide⟩
    | none => simp [SMap.Add, hm] at he
  · intro e he
    cases hm : mfind m.tbl key with
    | some v' => simp [SMap.Delete, hm] at he
    | none =>
        by_cases hs : m.shadowContains key
        · have : e = cannotDeleteFromShadowTable := by
            simp [SMap.Delete, hm, hs] at he
            exact he.symm
          subst this
          exact ⟨by decide, by decide⟩
        · have : e = TableKeysNotFound := by
            simp [SMap.Delete, hm, hs] at he
            exact he.symm
          subst this
          exact ⟨by decide, by decide⟩
  · intro e he
    have : e = TableKeysNotFound := hget e he
    subst this
    exact ⟨by decide, by decide⟩

/-- C10 witness: the map `(1 ↦ 2)` with no shadow, adding the duplicate
key `1` and getting or deleting the absent key `3`. -/
theorem c10_witness :
    (SMap.root ([(1, 2)] : List (Nat × Nat))).Add 1 5 =
        ((SMap.root ([(1, 2)] : List (Nat × Nat))).Add 1 5) ∧
      ((SMap.root ([(1, 2)] : List (Nat × Nat))).Add 1 5).1 =
        some TableDuplicateKeys ∧
      (SMap.root ([(1, 2)] : List (Nat × Nat))).Get 3 =
        Except.error TableKeysNotFound ∧
      ((SMap.root ([(1, 2)] : List (Nat × Nat))).Delete 3).1 =
        some TableKeysNotFound ∧
      (TableKeysNotFound ≠ MapKeyNotFound ∧
        TableKeysNotFound ≠ MapDuplicateKey) := by
  have h1 := c10_map_returns_table_errors
    (SMap.root ([(1, 2)] : List (Nat × Nat))) 1 5
  have h3 := c10_map_returns_table_errors
    (SMap.root ([(1, 2)] : List (Nat × Nat))) 3 5
  refine ⟨rfl, h1.1 (by decide), h3.2.1 (by decide), h3.2.2.1 (by decide), ?_⟩
  exact h3.2.2.2.2.2.1 TableKeysNotFound (h3.2.1 (by decide))

end Structures
